import Mathlib

/-!
Verification of the SGX measurement/signature core (files
src/signature/hasher.rs and src/sig.rs) against its specification.

The pluggable cryptographic digest is modelled by its transcript: the
Hasher state is the list of bytes fed to the digest so far, and finish
applies an arbitrary digest function to the transcript.  Machine integers
are modelled as Nat with explicit reduction modulo 2^w where the source
truncates.  Bytes are Nat values below 256 produced by the encoders.
-/

/-- Fixed-width little-endian byte encoding of a natural number, as
produced by to_le_bytes on a w-byte machine integer (truncates mod 256^w). -/
def leBytes : Nat → Nat → List Nat
  | 0, _ => []
  | w + 1, n => n % 256 :: leBytes w (n / 256)

/-- Value of a little-endian byte list. -/
def leToNat : List Nat → Nat
  | [] => 0
  | b :: rest => b + 256 * leToNat rest

/-- Minimal little-endian byte expansion, computed with explicit fuel so
that it reduces by kernel evaluation; fuel at least the value suffices. -/
def natToLEfuel : Nat → Nat → List Nat
  | _, 0 => []
  | 0, _ + 1 => []
  | fuel + 1, n + 1 => (n + 1) % 256 :: natToLEfuel fuel ((n + 1) / 256)

/-- Minimal little-endian byte expansion of a natural number. -/
def natToLE (n : Nat) : List Nat := natToLEfuel n n

/-- Minimal big-endian byte representation of a natural number, as
returned by the external big-integer capability (BN_bn2bin): most
significant byte first, empty for zero. -/
def natToBE (n : Nat) : List Nat := (natToLE n).reverse

/-- ECREATE magic constant fed to the digest (hasher.rs line 26). -/
def ECREATE : Nat := 0x0045544145524345

/-- EADD magic constant fed to the digest (hasher.rs line 46). -/
def EADD : Nat := 0x0000000044444145

/-- EEXTEND magic constant fed to the digest (hasher.rs line 45). -/
def EEXTEND : Nat := 0x00444E4554584545

/-- Error returned by Hasher.load when the input length is not a
multiple of the page size (hasher.rs InvalidSize). -/
inductive InvalidSize where
  | mk
deriving DecidableEq

/-- Bytes fed to the digest for one EEXTEND record: magic, 8-byte
little-endian segment offset, 48 reserved zero bytes, segment content
(hasher.rs lines 65 to 68). -/
def eextendRecord (off : Nat) (segment : List Nat) : List Nat :=
  leBytes 8 EEXTEND ++ leBytes 8 off ++ List.replicate 48 0 ++ segment

/-- Transcript of the EEXTEND loop over the 256-byte chunks of a page
(hasher.rs lines 63 to 70), iterated with explicit fuel; the running
offset advances by the chunk length. -/
def extendChunks : Nat → Nat → List Nat → List Nat
  | _, _, [] => []
  | 0, _, _ :: _ => []
  | fuel + 1, off, b :: rest =>
    eextendRecord off ((b :: rest).take 256) ++
      extendChunks fuel (off + ((b :: rest).take 256).length) ((b :: rest).drop 256)

/-- Transcript of the EEXTEND loop over a page, with canonical fuel. -/
def extendChain (off : Nat) (page : List Nat) : List Nat :=
  extendChunks page.length off page

/-- Bytes fed to the digest for one EADD record: magic, 8-byte
little-endian page offset, the first 48 bytes of the SecInfo record
(hasher.rs lines 56 to 59). -/
def eaddRecord (off : Nat) (secinfo : List Nat) : List Nat :=
  leBytes 8 EADD ++ leBytes 8 off ++ secinfo.take 48

/-- Transcript of the page loop in Hasher.load (hasher.rs lines 54 to
74): for each 4096-byte chunk, the EADD record, then when measuring the
EEXTEND records, with the offset advancing by the page length. -/
def loadChunks : Nat → Nat → List Nat → Bool → List Nat → List Nat
  | _, _, _, _, [] => []
  | 0, _, _, _, _ :: _ => []
  | fuel + 1, off, secinfo, m, b :: rest =>
    eaddRecord off secinfo ++
      (if m then extendChain off ((b :: rest).take 4096) else []) ++
      loadChunks fuel (off + ((b :: rest).take 4096).length) secinfo m ((b :: rest).drop 4096)

/-- Hasher.new (hasher.rs lines 22 to 34): seeds the transcript with
the ECREATE magic, the 4-byte little-endian ssa_frame_pages, the 8-byte
little-endian size and 44 reserved zero bytes. -/
def Hasher.new (size ssa_frame_pages : Nat) : List Nat :=
  leBytes 8 ECREATE ++ leBytes 4 ssa_frame_pages ++ leBytes 8 size ++ List.replicate 44 0

/-- Hasher.load (hasher.rs lines 37 to 77): rejects inputs whose length
is not a multiple of 4096 before touching the digest, otherwise appends
the page-loop transcript.  Returns the new state and the call result. -/
def Hasher.load (st : List Nat) (pages : List Nat) (offset : Nat) (secinfo : List Nat)
    (m : Bool) : List Nat × Except InvalidSize Unit :=
  if pages.length % 4096 ≠ 0 then (st, Except.error InvalidSize.mk)
  else (st ++ loadChunks pages.length offset secinfo m pages, Except.ok ())

/-- Hasher.finish (hasher.rs lines 80 to 82): hands the accumulated
transcript to the digest primitive. -/
def Hasher.finish (digest : List Nat → List Nat) (st : List Nat) : List Nat :=
  digest st

/-- Masked value (sig.rs lines 23 to 31): the data together with the
mask of enforced bits.  The generic bit-flag type T is modelled by
fixed-width natural numbers. -/
structure Masked (α : Type) where
  data : α
  mask : α
deriving DecidableEq

/-- Masked.from for a w-bit flag value (sig.rs lines 46 to 59):
data is the value and the mask is value OR NOT value, where NOT is
complement within w bits. -/
def Masked.fromValue (w v : Nat) : Masked Nat :=
  { data := v, mask := v ||| ((2 ^ w - 1) ^^^ v) }

/-- Masked equality against a plain value (sig.rs lines 61 to 70):
compares only the masked bits. -/
def Masked.eqv (m : Masked Nat) (other : Nat) : Bool :=
  (m.mask &&& m.data) == (m.mask &&& other)

/-- Author block (sig.rs lines 77 to 91); the reserved field holds the
21 reserved 32-bit words. -/
structure Author where
  header1 : Nat
  vendor : Nat
  date : Nat
  header2 : Nat
  swdefined : Nat
  reserved : List Nat
deriving DecidableEq

/-- Value of u128::from_be applied to a literal: the byte order of the
literal is reversed into the machine value. -/
def u128fromBE (n : Nat) : Nat := leToNat ((leBytes 16 n).reverse)

/-- Author.new (sig.rs lines 96 to 105). -/
def Author.new (date swdefined : Nat) : Author :=
  { header1 := u128fromBE 0x06000000E10000000000010000000000
    vendor := 0
    date := date
    header2 := u128fromBE 0x01010000600000006000000001000000
    swdefined := swdefined
    reserved := List.replicate 21 0 }

/-- Raw byte image of an Author value, per its repr(C) layout:
header1(16) vendor(4) date(4) header2(16) swdefined(4) reserved(84). -/
def authorBytes (a : Author) : List Nat :=
  leBytes 16 a.header1 ++ leBytes 4 a.vendor ++ leBytes 4 a.date ++
    leBytes 16 a.header2 ++ leBytes 4 a.swdefined ++
    a.reserved.flatMap (leBytes 4)

/-- Enclave parameters (sig.rs lines 110 to 122): misc is a masked
32-bit MiscSelect, attr a masked 128-bit Attributes value. -/
structure Parameters where
  misc : Masked Nat
  attr : Masked Nat
  isv_prod_id : Nat
  isv_svn : Nat
deriving DecidableEq

/-- Enclave measurement block (sig.rs lines 144 to 154). -/
structure Measurement where
  misc : Masked Nat
  reserved0 : List Nat
  attr : Masked Nat
  mrenclave : List Nat
  reserved1 : List Nat
  isv_prod_id : Nat
  isv_svn : Nat
deriving DecidableEq

/-- Parameters.measurement (sig.rs lines 124 to 137): combines the
configuration fields with the content digest, zero-filling the two
reserved regions. -/
def Parameters.measurement (p : Parameters) (mrenclave : List Nat) : Measurement :=
  { misc := p.misc
    reserved0 := List.replicate 20 0
    attr := p.attr
    mrenclave := mrenclave
    reserved1 := List.replicate 32 0
    isv_prod_id := p.isv_prod_id
    isv_svn := p.isv_svn }

/-- Measurement.parameters (sig.rs lines 163 to 170). -/
def Measurement.parameters (m : Measurement) : Parameters :=
  { misc := m.misc
    attr := m.attr
    isv_prod_id := m.isv_prod_id
    isv_svn := m.isv_svn }

/-- Raw byte image of a Measurement value, per its repr(C) layout:
misc(8) reserved0(20) attr(32) mrenclave(32) reserved1(32)
isv_prod_id(2) isv_svn(2). -/
def measurementBytes (m : Measurement) : List Nat :=
  leBytes 4 m.misc.data ++ leBytes 4 m.misc.mask ++ m.reserved0 ++
    leBytes 16 m.attr.data ++ leBytes 16 m.attr.mask ++ m.mrenclave ++
    m.reserved1 ++ leBytes 2 m.isv_prod_id ++ leBytes 2 m.isv_svn

/-- RsaNumber (sig.rs lines 228 to 233): a 384-byte little-endian
buffer. -/
structure RsaNumber where
  bytes : List Nat
deriving DecidableEq

/-- Width of the RsaNumber wire form in bytes. -/
def RsaNumber.SIZE : Nat := 384

/-- Error type for the fallible operations of sig.rs; both the key
rejection and the conversion overflow surface ErrorKind::InvalidInput. -/
inductive SigError where
  | invalidInput
deriving DecidableEq

/-- RsaNumber.try_from for a big integer (sig.rs lines 253 to 271): the
minimal big-endian representation is reversed into a zeroed 384-byte
buffer, writing le[be.len - 1 - i] = be[i]; values needing more than
384 bytes are rejected. -/
def RsaNumber.tryFrom (value : Nat) : Except SigError RsaNumber :=
  if (natToBE value).length > RsaNumber.SIZE then Except.error SigError.invalidInput
  else Except.ok
    { bytes := (List.range RsaNumber.SIZE).map fun j =>
        if j < (natToBE value).length
        then (natToBE value).getD ((natToBE value).length - 1 - j) 0
        else 0 }

/-- Big-integer value of an RsaNumber buffer. -/
def RsaNumber.toNat (r : RsaNumber) : Nat := leToNat r.bytes

/-- External RSA private key, reduced to the data the code consumes:
the modulus n and the public exponent e. -/
structure RsaKey where
  n : Nat
  e : Nat
deriving DecidableEq

/-- Signature structure (sig.rs lines 292 to 303). -/
structure Signature where
  author : Author
  modulus : RsaNumber
  exponent : Nat
  signature : RsaNumber
  measurement : Measurement
  reserved : List Nat
  q1 : RsaNumber
  q2 : RsaNumber
deriving DecidableEq

/-- Measurement.sign (sig.rs lines 174 to 225).  The external RSA
signing primitive is passed as a function from the signed message to
the big-integer value of the produced signature.  The key is rejected
first when its exponent is not 3; then q1 = s*s / n, qr = s*s mod n and
q2 = s*qr / n are derived exactly as div_rem and the division do, and
the four big-integer fields are converted in the evaluation order of
the struct literal (modulus, signature, q1, q2). -/
def Measurement.sign (m : Measurement) (author : Author) (key : RsaKey)
    (rsaSign : List Nat → Nat) : Except SigError Signature :=
  if key.e ≠ 3 then Except.error SigError.invalidInput
  else
    let s := rsaSign (authorBytes author ++ measurementBytes m)
    let q1 := s * s / key.n
    let qr := s * s % key.n
    let q2 := s * qr / key.n
    match RsaNumber.tryFrom key.n, RsaNumber.tryFrom s,
        RsaNumber.tryFrom q1, RsaNumber.tryFrom q2 with
    | Except.ok nN, Except.ok sN, Except.ok q1N, Except.ok q2N =>
      Except.ok
        { author := author
          modulus := nN
          exponent := 3
          signature := sN
          measurement := m
          reserved := List.replicate 12 0
          q1 := q1N
          q2 := q2N }
    | Except.error err, _, _, _ => Except.error err
    | _, Except.error err, _, _ => Except.error err
    | _, _, Except.error err, _ => Except.error err
    | _, _, _, Except.error err => Except.error err

/-- Size in bytes of the Signature structure wire form. -/
def Signature.SIZE : Nat := 1808

/-- Outcome of Signature.read_from: either the 1808 consumed bytes, or
the panic that read_exact(..).unwrap() raises on a short source. -/
inductive ReadOutcome where
  | ok (raw : List Nat)
  | panicked
deriving DecidableEq

/-- Signature.read_from (sig.rs lines 317 to 330): fills the 1808-byte
image of the structure from the byte source with read_exact and calls
unwrap on the result, so a source holding fewer than 1808 bytes makes
the process panic instead of surfacing the error. -/
def Signature.read_from (input : List Nat) : ReadOutcome :=
  if Signature.SIZE ≤ input.length then ReadOutcome.ok (input.take Signature.SIZE)
  else ReadOutcome.panicked

/-- Fuel invariance for the EEXTEND chunk loop: any fuel at least the
list length computes the same transcript. -/
theorem extendChunks_fuel (f₁ : Nat) : ∀ (f₂ off : Nat) (l : List Nat),
    l.length ≤ f₁ → l.length ≤ f₂ → extendChunks f₁ off l = extendChunks f₂ off l := by
  induction f₁ with
  | zero =>
    intro f₂ off l h1 h2
    cases l with
    | nil => cases f₂ <;> rfl
    | cons b rest => simp at h1
  | succ g ih =>
    intro f₂ off l h1 h2
    cases l with
    | nil => cases f₂ <;> rfl
    | cons b rest =>
      cases f₂ with
      | zero => simp at h2
      | succ f =>
        simp only [extendChunks]
        congr 1
        apply ih
        · simp only [List.length_drop] at *
          simp only [List.length_cons] at *
          omega
        · simp only [List.length_drop, List.length_cons] at *
          omega

/-- Unfolding of extendChain on a nonempty page. -/
theorem extendChain_cons (off b : Nat) (rest : List Nat) :
    extendChain off (b :: rest) =
      eextendRecord off ((b :: rest).take 256) ++
        extendChain (off + ((b :: rest).take 256).length) ((b :: rest).drop 256) := by
  show extendChunks (rest.length + 1) off (b :: rest) = _
  simp only [extendChunks]
  congr 1
  apply extendChunks_fuel
  · simp only [List.length_drop, List.length_cons]
    omega
  · exact Nat.le_refl _

/-- Fuel invariance for the page loop: any fuel at least the list
length computes the same transcript. -/
theorem loadChunks_fuel (f₁ : Nat) : ∀ (f₂ off : Nat) (secinfo : List Nat) (m : Bool)
    (l : List Nat), l.length ≤ f₁ → l.length ≤ f₂ →
    loadChunks f₁ off secinfo m l = loadChunks f₂ off secinfo m l := by
  induction f₁ with
  | zero =>
    intro f₂ off secinfo m l h1 h2
    cases l with
    | nil => cases f₂ <;> rfl
    | cons b rest => simp at h1
  | succ g ih =>
    intro f₂ off secinfo m l h1 h2
    cases l with
    | nil => cases f₂ <;> rfl
    | cons b rest =>
      cases f₂ with
      | zero => simp at h2
      | succ f =>
        simp only [loadChunks]
        congr 1
        apply ih
        · simp only [List.length_drop, List.length_cons] at *
          omega
        · simp only [List.length_drop, List.length_cons] at *
          omega

/-- Transcript of the page loop with canonical fuel. -/
def loadChain (off : Nat) (secinfo : List Nat) (m : Bool) (pages : List Nat) : List Nat :=
  loadChunks pages.length off secinfo m pages

/-- Unfolding of loadChain on a nonempty input. -/
theorem loadChain_cons (off : Nat) (secinfo : List Nat) (m : Bool) (b : Nat)
    (rest : List Nat) :
    loadChain off secinfo m (b :: rest) =
      eaddRecord off secinfo ++
        (if m then extendChain off ((b :: rest).take 4096) else []) ++
        loadChain (off + ((b :: rest).take 4096).length) secinfo m ((b :: rest).drop 4096) := by
  show loadChunks (rest.length + 1) off secinfo m (b :: rest) = _
  simp only [loadChunks]
  congr 1
  apply loadChunks_fuel
  · simp only [List.length_drop, List.length_cons]
    omega
  · exact Nat.le_refl _

/-- Hasher.load restated through the canonical-fuel transcript. -/
theorem Hasher.load_eq (st pages : List Nat) (offset : Nat) (secinfo : List Nat) (m : Bool) :
    Hasher.load st pages offset secinfo m =
      if pages.length % 4096 ≠ 0 then (st, Except.error InvalidSize.mk)
      else (st ++ loadChain offset secinfo m pages, Except.ok ()) := rfl

/-- Fuel invariance for the minimal little-endian expansion. -/
theorem natToLEfuel_eq (n : Nat) : ∀ fuel, n ≤ fuel → natToLEfuel fuel n = natToLE n := by
  induction n using Nat.strong_induction_on with
  | _ n ih =>
    intro fuel h
    cases n with
    | zero => cases fuel <;> rfl
    | succ m =>
      cases fuel with
      | zero => omega
      | succ f =>
        have hk : (m + 1) / 256 < m + 1 := Nat.div_lt_self (Nat.succ_pos m) (by omega)
        have h1 : natToLEfuel f ((m + 1) / 256) = natToLE ((m + 1) / 256) :=
          ih _ hk f (by omega)
        have h2 : natToLEfuel m ((m + 1) / 256) = natToLE ((m + 1) / 256) :=
          ih _ hk m (by omega)
        show natToLEfuel (f + 1) (m + 1) = natToLE (m + 1)
        unfold natToLE
        simp only [natToLEfuel]
        rw [h1, h2]

/-- Unfolding of natToLE on a positive value. -/
theorem natToLE_pos (n : Nat) (h : 0 < n) :
    natToLE n = n % 256 :: natToLE (n / 256) := by
  cases n with
  | zero => omega
  | succ m =>
    show natToLEfuel (m + 1) (m + 1) = _
    simp only [natToLEfuel]
    congr 1
    exact natToLEfuel_eq _ m (by
      have := Nat.div_lt_self (Nat.succ_pos m) (show 1 < 256 by omega)
      omega)

/-- The minimal expansion fits in k bytes exactly when the value is
below 256 to the k. -/
theorem natToLE_length_le (k : Nat) : ∀ n, (natToLE n).length ≤ k ↔ n < 256 ^ k := by
  induction k with
  | zero =>
    intro n
    cases n with
    | zero => simp [natToLE, natToLEfuel]
    | succ m =>
      rw [natToLE_pos (m + 1) (Nat.succ_pos m)]
      simp
  | succ j ih =>
    intro n
    cases Nat.eq_zero_or_pos n with
    | inl h0 =>
      subst h0
      simp only [natToLE, natToLEfuel, List.length_nil]
      constructor
      · intro _
        exact Nat.pos_pow_of_pos _ (by omega)
      · intro _
        omega
    | inr hp =>
      rw [natToLE_pos n hp]
      simp only [List.length_cons]
      rw [Nat.add_le_add_iff_right, ih (n / 256),
        Nat.div_lt_iff_lt_mul (show (0 : Nat) < 256 by omega), ← pow_succ]

/-- Value of the minimal little-endian expansion. -/
theorem leToNat_natToLE (n : Nat) : leToNat (natToLE n) = n := by
  induction n using Nat.strong_induction_on with
  | _ n ih =>
    cases Nat.eq_zero_or_pos n with
    | inl h0 => subst h0; rfl
    | inr hp =>
      rw [natToLE_pos n hp]
      simp only [leToNat]
      rw [ih (n / 256) (Nat.div_lt_self hp (by omega))]
      omega

/-- Zero bytes contribute nothing to a little-endian value. -/
theorem leToNat_replicate_zero (k : Nat) : leToNat (List.replicate k 0) = 0 := by
  induction k with
  | zero => rfl
  | succ j ih => simp [List.replicate, leToNat, ih]

/-- High zero padding does not change a little-endian value. -/
theorem leToNat_append_zeros (l : List Nat) (k : Nat) :
    leToNat (l ++ List.replicate k 0) = leToNat l := by
  induction l with
  | nil => simp [leToNat, leToNat_replicate_zero]
  | cons b rest ih => simp [leToNat, ih]

/-- The indexed write loop of RsaNumber.try_from builds the byte-wise
reversal of the source padded with zero high bytes. -/
theorem rangeMap_rev_pad (N : Nat) (be : List Nat) (h : be.length ≤ N) :
    ((List.range N).map fun j =>
        if j < be.length then be.getD (be.length - 1 - j) 0 else 0)
      = be.reverse ++ List.replicate (N - be.length) 0 := by
  apply List.ext_getElem
  · simp only [List.length_map, List.length_range, List.length_append,
      List.length_reverse, List.length_replicate]
    omega
  · intro i h1 h2
    simp only [List.getElem_map, List.getElem_range]
    by_cases hi : i < be.length
    · rw [if_pos hi]
      rw [List.getElem_append_left (by simpa using hi)]
      rw [List.getElem_reverse]
      rw [List.getD_eq_getElem be 0 (by omega)]
    · rw [if_neg hi]
      rw [List.getElem_append_right (by simpa using Nat.le_of_not_lt hi)]
      simp

/-- Shape of a successful RsaNumber conversion. -/
theorem tryFrom_ok_bytes (v : Nat) (r : RsaNumber)
    (h : RsaNumber.tryFrom v = Except.ok r) :
    r.bytes = (natToBE v).reverse ++ List.replicate (RsaNumber.SIZE - (natToBE v).length) 0 := by
  unfold RsaNumber.tryFrom at h
  by_cases hl : (natToBE v).length > RsaNumber.SIZE
  · rw [if_pos hl] at h
    cases h
  · rw [if_neg hl] at h
    cases h
    exact rangeMap_rev_pad _ _ (by omega)

/-- A successful RsaNumber conversion decodes back to the value. -/
theorem tryFrom_toNat (v : Nat) (r : RsaNumber)
    (h : RsaNumber.tryFrom v = Except.ok r) : r.toNat = v := by
  have hb := tryFrom_ok_bytes v r h
  unfold RsaNumber.toNat
  rw [hb, natToBE, List.reverse_reverse, leToNat_append_zeros, leToNat_natToLE]

/-- RsaNumber conversion succeeds exactly on values below 2 to the 3072. -/
theorem tryFrom_isOk_iff (v : Nat) :
    (RsaNumber.tryFrom v).isOk = true ↔ v < 2 ^ (8 * RsaNumber.SIZE) := by
  unfold RsaNumber.tryFrom
  have hlen : (natToBE v).length = (natToLE v).length := List.length_reverse _
  have h2 : (2 : Nat) ^ (8 * RsaNumber.SIZE) = 256 ^ RsaNumber.SIZE := by
    rw [pow_mul]
    norm_num
  by_cases hl : (natToBE v).length > RsaNumber.SIZE
  · rw [if_pos hl]
    simp only [Except.isOk, Except.toBool]
    constructor
    · intro h
      cases h
    · intro h
      rw [h2] at h
      have := (natToLE_length_le RsaNumber.SIZE v).mpr h
      omega
  · rw [if_neg hl]
    simp only [Except.isOk, Except.toBool]
    constructor
    · intro _
      rw [h2]
      exact (natToLE_length_le RsaNumber.SIZE v).mp (by omega)
    · intro _
      trivial

/-- For a value below 2 to the w, OR with its w-bit complement yields
the all-ones mask. -/
theorem or_not_self_eq_ones (w v : Nat) (hv : v < 2 ^ w) :
    v ||| ((2 ^ w - 1) ^^^ v) = 2 ^ w - 1 := by
  apply Nat.eq_of_testBit_eq
  intro i
  rw [Nat.testBit_lor, Nat.testBit_xor, Nat.testBit_two_pow_sub_one]
  by_cases hi : i < w
  · rw [decide_eq_true hi]
    cases hb : v.testBit i <;> simp
  · have hvi : v.testBit i = false :=
      Nat.testBit_lt_two_pow
        (lt_of_lt_of_le hv (Nat.pow_le_pow_right (by omega) (Nat.le_of_not_lt hi)))
    simp [hi, hvi]

/-- C7: Masked.fromValue keeps the value as data and enforces every bit
(the mask value OR NOT value is all ones); masked equality against a
plain value compares exactly the masked bits, holds reflexively for a
converted value, and is preserved when the compared values differ only
in bits that are zero in the mask. -/
theorem C7_masked_from_eq (w v : Nat) (m : Masked Nat) (x y : Nat) (hv : v < 2 ^ w) :
    (Masked.fromValue w v).data = v
    ∧ (Masked.fromValue w v).mask = 2 ^ w - 1
    ∧ (Masked.eqv m x = true ↔ m.mask &&& m.data = m.mask &&& x)
    ∧ Masked.eqv (Masked.fromValue w v) v = true
    ∧ ((x ^^^ y) &&& m.mask = 0 → Masked.eqv m x = Masked.eqv m y) := by
  refine ⟨rfl, or_not_self_eq_ones w v hv, ?_, ?_, ?_⟩
  · simp [Masked.eqv]
  · simp [Masked.eqv, Masked.fromValue]
  · intro h
    have hc : m.mask &&& (x ^^^ y) = 0 := by
      rw [Nat.and_comm]
      exact h
    rw [Nat.and_xor_distrib_left] at hc
    have he : m.mask &&& x = m.mask &&& y := Nat.xor_eq_zero.mp hc
    rw [Masked.eqv, Masked.eqv, he]

/-- Witness for C7 at w = 8, v = 165, with a mask enforcing only the
low nibble and compared values differing in an unmasked bit. -/
theorem C7_masked_from_eq_witness :
    (Masked.fromValue 8 165).data = 165
    ∧ (Masked.fromValue 8 165).mask = 2 ^ 8 - 1
    ∧ (Masked.eqv ⟨5, 15⟩ 21 = true ↔ (15 : Nat) &&& 5 = 15 &&& 21)
    ∧ Masked.eqv (Masked.fromValue 8 165) 165 = true
    ∧ (((21 : Nat) ^^^ 53) &&& 15 = 0 →
        Masked.eqv ⟨5, 15⟩ 21 = Masked.eqv ⟨5, 15⟩ 53) :=
  C7_masked_from_eq 8 165 ⟨5, 15⟩ 21 53 (by decide)

/-- C8: Parameters.measurement combines the configuration with the
digest and zero-filled reserved regions; Measurement.parameters is the
inverse projection and Measurement.mrenclave returns the digest. -/
theorem C8_measurement_roundtrip (p : Parameters) (d : List Nat) :
    (p.measurement d).parameters = p
    ∧ (p.measurement d).mrenclave = d
    ∧ (p.measurement d).reserved0 = List.replicate 20 0
    ∧ (p.measurement d).reserved1 = List.replicate 32 0 :=
  ⟨rfl, rfl, rfl, rfl⟩

/-- C2: Hasher.load fails with InvalidSize exactly when the input
length is not a multiple of 4096 bytes, and a rejected call leaves the
digest transcript exactly as it was. -/
theorem C2_load_rejects_unaligned (st pages : List Nat) (offset : Nat)
    (secinfo : List Nat) (m : Bool) :
    ((Hasher.load st pages offset secinfo m).2 = Except.error InvalidSize.mk
      ↔ pages.length % 4096 ≠ 0)
    ∧ (pages.length % 4096 ≠ 0 → (Hasher.load st pages offset secinfo m).1 = st) := by
  unfold Hasher.load
  by_cases h : pages.length % 4096 ≠ 0 <;> simp [h]

/-- Witness for C2 on a one-byte input, whose rejection leaves the
transcript empty. -/
theorem C2_load_rejects_unaligned_witness :
    (Hasher.load [] [0] 0 [] true).1 = [] :=
  (C2_load_rejects_unaligned [] [0] 0 [] true).2 (by decide)

/-- C10: loading an empty page slice succeeds and leaves the digest
transcript unchanged, for every state, offset, secinfo and measure
flag. -/
theorem C10_load_empty (st : List Nat) (offset : Nat) (secinfo : List Nat) (m : Bool) :
    Hasher.load st [] offset secinfo m = (st, Except.ok ()) := by
  unfold Hasher.load
  simp [loadChunks]

/-- C3: the code of Signature.read_from panics on a source shorter than
1808 bytes (read_exact followed by unwrap) instead of returning the
error its io::Result signature promises; on a sufficient source it
consumes exactly the first 1808 bytes. -/
theorem C3_read_from_short_source :
    Signature.read_from (List.replicate 1807 0) = ReadOutcome.panicked
    ∧ Signature.read_from [] = ReadOutcome.panicked
    ∧ Signature.read_from (List.replicate 1808 7) = ReadOutcome.ok (List.replicate 1808 7) := by
  refine ⟨?_, rfl, ?_⟩
  · have h : ¬ Signature.SIZE ≤ (List.replicate 1807 (0 : Nat)).length := by
      rw [List.length_replicate]
      decide
    unfold Signature.read_from
    rw [if_neg h]
  · have h : Signature.SIZE ≤ (List.replicate 1808 (7 : Nat)).length := by
      rw [List.length_replicate]
      decide
    unfold Signature.read_from
    rw [if_pos h, List.take_replicate]
    norm_num [Signature.SIZE]

/-- C6: converting a big integer to an RsaNumber fails exactly when its
minimal big-endian representation needs more than 384 bytes, that is
exactly when the value is at least 2 to the 3072; on success the
384-byte buffer is the byte-wise reversal of the big-endian
representation with the remaining high bytes zero, and it decodes back
to the value. -/
theorem C6_rsa_number_conversion (v : Nat) :
    ((RsaNumber.tryFrom v).isOk = false ↔ (natToBE v).length > 384)
    ∧ ((natToBE v).length > 384 ↔ 2 ^ (8 * 384) ≤ v)
    ∧ (∀ r, RsaNumber.tryFrom v = Except.ok r →
        r.bytes = (natToBE v).reverse ++ List.replicate (384 - (natToBE v).length) 0
        ∧ r.bytes.length = 384
        ∧ r.toNat = v) := by
  have hiff := tryFrom_isOk_iff v
  simp only [RsaNumber.SIZE] at hiff
  have hlen : (natToBE v).length = (natToLE v).length := List.length_reverse _
  have h2 : (2 : Nat) ^ (8 * 384) = 256 ^ 384 := by
    rw [pow_mul]
    norm_num
  have hfit : (natToLE v).length ≤ 384 ↔ v < 256 ^ 384 := natToLE_length_le 384 v
  have hkey : (natToBE v).length > 384 ↔ 2 ^ (8 * 384) ≤ v := by
    rw [hlen, h2]
    constructor
    · intro h
      by_contra hc
      have hv : v < 256 ^ 384 := Nat.lt_of_not_le hc
      have := hfit.mpr hv
      omega
    · intro h
      by_contra hc
      have hle : (natToLE v).length ≤ 384 := by omega
      exact absurd (hfit.mp hle) (Nat.not_lt.mpr h)
  refine ⟨?_, hkey, ?_⟩
  · rw [hkey]
    constructor
    · intro h
      by_contra hc
      have hv : v < 2 ^ (8 * 384) := Nat.lt_of_not_le hc
      have := hiff.mpr hv
      rw [h] at this
      cases this
    · intro h
      cases ho : (RsaNumber.tryFrom v).isOk with
      | false => rfl
      | true => exact absurd (hiff.mp ho) (Nat.not_lt.mpr h)
  · intro r hr
    have hb := tryFrom_ok_bytes v r hr
    simp only [RsaNumber.SIZE] at hb
    have hok : (RsaNumber.tryFrom v).isOk = true := by
      rw [hr]
      rfl
    have hv : v < 2 ^ (8 * 384) := hiff.mp hok
    have hl : (natToLE v).length ≤ 384 := hfit.mpr (by
      rw [← h2]
      exact hv)
    refine ⟨hb, ?_, tryFrom_toNat v r hr⟩
    rw [hb]
    simp only [List.length_append, List.length_reverse, List.length_replicate]
    omega

/-- Concrete RsaNumber produced by converting the value 2. -/
def c6num : RsaNumber := (RsaNumber.tryFrom 2).toOption.getD { bytes := [] }

/-- Witness for C6 at the value 2. -/
theorem C6_rsa_number_conversion_witness :
    c6num.bytes = (natToBE 2).reverse ++ List.replicate (384 - (natToBE 2).length) 0
    ∧ c6num.bytes.length = 384
    ∧ c6num.toNat = 2 :=
  (C6_rsa_number_conversion 2).2.2 c6num rfl

/-- Inversion of a successful Measurement.sign: the key passed the
exponent check, the stored exponent is 3, and the four big-integer
fields decode to the modulus, the raw signature value and the two
derived quotients. -/
theorem sign_ok_inv (msr : Measurement) (a : Author) (key : RsaKey)
    (rsaSign : List Nat → Nat) (sig : Signature)
    (hok : Measurement.sign msr a key rsaSign = Except.ok sig) :
    key.e = 3
    ∧ sig.exponent = 3
    ∧ sig.modulus.toNat = key.n
    ∧ sig.signature.toNat = rsaSign (authorBytes a ++ measurementBytes msr)
    ∧ sig.q1.toNat = sig.signature.toNat * sig.signature.toNat / key.n
    ∧ sig.q2.toNat =
        sig.signature.toNat * (sig.signature.toNat * sig.signature.toNat % key.n) / key.n := by
  simp only [Measurement.sign] at hok
  by_cases he : key.e ≠ 3
  · rw [if_pos he] at hok
    cases hok
  · rw [if_neg he] at hok
    split at hok <;> cases hok
    rename_i nN sN q1N q2N h1 h2 h3 h4
    have hs : sN.toNat = rsaSign (authorBytes a ++ measurementBytes msr) :=
      tryFrom_toNat _ _ h2
    refine ⟨by omega, rfl, tryFrom_toNat _ _ h1, hs, ?_, ?_⟩
    · show q1N.toNat = sN.toNat * sN.toNat / key.n
      rw [hs]
      exact tryFrom_toNat _ _ h3
    · show q2N.toNat = sN.toNat * (sN.toNat * sN.toNat % key.n) / key.n
      rw [hs]
      exact tryFrom_toNat _ _ h4

/-- C5: Measurement.sign rejects any key whose public exponent is not 3
before any signature computation (the rejection does not depend on the
signing primitive), and every successfully assembled Signature records
exponent 3. -/
theorem C5_sign_exponent_check (msr : Measurement) (a : Author) (key : RsaKey)
    (rsaSign : List Nat → Nat) :
    (key.e ≠ 3 → Measurement.sign msr a key rsaSign = Except.error SigError.invalidInput)
    ∧ (∀ sig, Measurement.sign msr a key rsaSign = Except.ok sig → sig.exponent = 3) := by
  constructor
  · intro h
    unfold Measurement.sign
    rw [if_pos h]
  · intro sig h
    exact (sign_ok_inv msr a key rsaSign sig h).2.1

/-- Configuration with all fields zero, used by the concrete witnesses. -/
def sampleParameters : Parameters :=
  { misc := ⟨0, 0⟩, attr := ⟨0, 0⟩, isv_prod_id := 0, isv_svn := 0 }

/-- Measurement with a zero digest, used by the concrete witnesses. -/
def sampleMeasurement : Measurement := sampleParameters.measurement (List.replicate 32 0)

/-- Author block used by the concrete witnesses. -/
def sampleAuthor : Author := Author.new 0x20230101 0

/-- Signature produced by signing the sample measurement with the toy
key of modulus 5 and exponent 3, the signing primitive returning 2. -/
def c4sig : Signature :=
  (Measurement.sign sampleMeasurement sampleAuthor ⟨5, 3⟩ (fun _ => 2)).toOption.getD
    { author := sampleAuthor, modulus := ⟨[]⟩, exponent := 0, signature := ⟨[]⟩,
      measurement := sampleMeasurement, reserved := [], q1 := ⟨[]⟩, q2 := ⟨[]⟩ }

/-- Witness for C5: a key with exponent 2 is rejected, and the sample
signing with exponent 3 stores exponent 3. -/
theorem C5_sign_exponent_check_witness :
    Measurement.sign sampleMeasurement sampleAuthor ⟨5, 2⟩ (fun _ => 2)
        = Except.error SigError.invalidInput
    ∧ c4sig.exponent = 3 :=
  ⟨(C5_sign_exponent_check sampleMeasurement sampleAuthor ⟨5, 2⟩ (fun _ => 2)).1 (by decide),
   (C5_sign_exponent_check sampleMeasurement sampleAuthor ⟨5, 3⟩ (fun _ => 2)).2 c4sig rfl⟩

/-- C4: every successful sign with a positive modulus records q1 and q2
that are exactly floor(s*s / m) and floor(s * (s*s mod m) / m) for the
recorded signature s and modulus m, so they satisfy the verifier
identities q1*m + (s*s mod m) = s*s and
q2*m <= s*(s*s mod m) < (q2+1)*m. -/
theorem C4_sign_quotients (msr : Measurement) (a : Author) (key : RsaKey)
    (rsaSign : List Nat → Nat) (sig : Signature) (hn : 0 < key.n)
    (hok : Measurement.sign msr a key rsaSign = Except.ok sig) :
    sig.q1.toNat = sig.signature.toNat * sig.signature.toNat / sig.modulus.toNat
    ∧ sig.q2.toNat = sig.signature.toNat *
        (sig.signature.toNat * sig.signature.toNat % sig.modulus.toNat) / sig.modulus.toNat
    ∧ sig.q1.toNat * sig.modulus.toNat +
        (sig.signature.toNat * sig.signature.toNat % sig.modulus.toNat)
      = sig.signature.toNat * sig.signature.toNat
    ∧ sig.q2.toNat * sig.modulus.toNat ≤ sig.signature.toNat *
        (sig.signature.toNat * sig.signature.toNat % sig.modulus.toNat)
    ∧ sig.signature.toNat *
        (sig.signature.toNat * sig.signature.toNat % sig.modulus.toNat)
      < (sig.q2.toNat + 1) * sig.modulus.toNat := by
  obtain ⟨he, hexp, hm, hs, hq1, hq2⟩ := sign_ok_inv msr a key rsaSign sig hok
  rw [hm]
  refine ⟨hq1, hq2, ?_, ?_, ?_⟩
  · rw [hq1, Nat.mul_comm]
    exact Nat.div_add_mod _ _
  · rw [hq2]
    exact Nat.div_mul_le_self _ _
  · rw [hq2]
    exact (Nat.div_lt_iff_lt_mul hn).mp (Nat.lt_succ_self _)

/-- Witness for C4 on the toy key of modulus 5, exponent 3 and raw
signature value 2. -/
theorem C4_sign_quotients_witness :
    c4sig.q1.toNat * c4sig.modulus.toNat +
        (c4sig.signature.toNat * c4sig.signature.toNat % c4sig.modulus.toNat)
      = c4sig.signature.toNat * c4sig.signature.toNat :=
  (C4_sign_quotients sampleMeasurement sampleAuthor ⟨5, 3⟩ (fun _ => 2) c4sig
    (by decide) rfl).2.2.1

/-- Congruence for flatMap restricted to list members. -/
theorem flatMap_congr_mem {α β : Type} (l : List α) (f g : α → List β)
    (h : ∀ a ∈ l, f a = g a) : l.flatMap f = l.flatMap g := by
  induction l with
  | nil => rfl
  | cons x xs ih =>
    rw [List.flatMap_cons, List.flatMap_cons, h x (by simp)]
    rw [ih (fun a ha => h a (by simp [ha]))]

/-- Closed form of the EEXTEND loop: on a page of 256*m bytes the
transcript is one record per segment index j, at offset off + 256*j,
carrying the 256-byte segment starting at byte 256*j. -/
theorem extendChain_eq_spec (m : Nat) : ∀ (off : Nat) (page : List Nat),
    page.length = 256 * m →
    extendChain off page = (List.range m).flatMap fun j =>
      eextendRecord (off + 256 * j) ((page.drop (256 * j)).take 256) := by
  induction m with
  | zero =>
    intro off page h
    have hnil : page = [] := List.eq_nil_of_length_eq_zero (by omega)
    subst hnil
    rfl
  | succ k ih =>
    intro off page h
    cases page with
    | nil => simp at h
    | cons b rest =>
      rw [extendChain_cons]
      have htl : ((b :: rest).take 256).length = 256 := by
        rw [List.length_take]
        simp only [List.length_cons] at h ⊢
        omega
      have hdl : ((b :: rest).drop 256).length = 256 * k := by
        rw [List.length_drop]
        simp only [List.length_cons] at h ⊢
        omega
      rw [htl, ih (off + 256) _ hdl]
      rw [List.range_succ_eq_map, List.flatMap_cons, List.flatMap_map]
      congr 1
      apply flatMap_congr_mem
      intro j _
      have hoff : off + 256 + 256 * j = off + 256 * (j + 1) := by omega
      have hidx : 256 * (j + 1) = (255 + 256 * j) + 1 := by omega
      have hdrop : (b :: rest).drop (256 * (j + 1)) = rest.drop (255 + 256 * j) := by
        rw [hidx, List.drop_succ_cons]
      rw [hoff, List.drop_drop]
      have h2 : 256 + 256 * j = 256 * (j + 1) := by omega
      rw [h2]

/-- The EEXTEND loop over the first 4096 bytes of an input reads its
segments directly from the input. -/
theorem extendChain_take_spec (off : Nat) (l : List Nat) (hl : 4096 ≤ l.length) :
    extendChain off (l.take 4096) = (List.range 16).flatMap fun j =>
      eextendRecord (off + 256 * j) ((l.drop (256 * j)).take 256) := by
  rw [extendChain_eq_spec 16 off (l.take 4096) (by
    rw [List.length_take]
    omega)]
  apply flatMap_congr_mem
  intro j hj
  have hj16 : j < 16 := List.mem_range.mp hj
  congr 1
  rw [List.drop_take, List.take_take]
  congr 1
  omega

/-- Closed form of the page loop: on an input of 4096*k bytes the
transcript is, for page index i in order, the EADD record at offset
off + 4096*i followed, when measuring, by the 16 EEXTEND records of
that page, the segment at index j sitting at offset
off + 4096*i + 256*j. -/
theorem loadChain_eq_spec (k : Nat) : ∀ (off : Nat) (si : List Nat) (m : Bool)
    (pages : List Nat), pages.length = 4096 * k →
    loadChain off si m pages = (List.range k).flatMap fun i =>
      eaddRecord (off + 4096 * i) si ++
        (if m then (List.range 16).flatMap fun j =>
            eextendRecord (off + 4096 * i + 256 * j)
              ((pages.drop (4096 * i + 256 * j)).take 256)
          else []) := by
  induction k with
  | zero =>
    intro off si m pages h
    have hnil : pages = [] := List.eq_nil_of_length_eq_zero (by omega)
    subst hnil
    rfl
  | succ t ih =>
    intro off si m pages h
    cases pages with
    | nil => simp at h
    | cons b rest =>
      rw [loadChain_cons]
      have htl : ((b :: rest).take 4096).length = 4096 := by
        rw [List.length_take]
        simp only [List.length_cons] at h ⊢
        omega
      have hdl : ((b :: rest).drop 4096).length = 4096 * t := by
        rw [List.length_drop]
        simp only [List.length_cons] at h ⊢
        omega
      rw [htl, ih (off + 4096) si m _ hdl]
      rw [List.range_succ_eq_map t, List.flatMap_cons, List.flatMap_map]
      congr 1
      · simp only [Nat.mul_zero, Nat.add_zero, Nat.zero_add]
        cases m with
        | false => rfl
        | true =>
          congr 1
          rw [if_pos rfl, if_pos rfl]
          exact extendChain_take_spec off (b :: rest) (by
            simp only [List.length_cons] at h ⊢
            omega)
      · apply flatMap_congr_mem
        intro i _
        have hoff : off + 4096 + 4096 * i = off + 4096 * (i + 1) := by omega
        cases m with
        | false =>
          rw [hoff, Nat.succ_eq_add_one, if_neg Bool.false_ne_true,
            if_neg Bool.false_ne_true]
        | true =>
          rw [hoff, Nat.succ_eq_add_one]
          congr 1
          rw [if_pos rfl, if_pos rfl]
          apply flatMap_congr_mem
          intro j _
          rw [List.drop_drop]
          have hidx : 4096 + (4096 * i + 256 * j) = 4096 * (i + 1) + 256 * j := by omega
          rw [hidx]

/-- C1: the Hasher reproduces the hardware digest chain exactly.
Hasher.new feeds the 8-byte little-endian ECREATE magic, the 4-byte
little-endian ssa_frame_pages, the 8-byte little-endian size and 44
zero bytes; an accepted load feeds, for every 4096-byte page in order,
the EADD magic, the little-endian page offset (advancing by 4096 per
page) and the first 48 bytes of the secinfo record, and, when
measuring, for each 256-byte segment the EEXTEND magic, the segment
offset (page offset plus 256 times the segment index), 48 zero bytes
and the segment content. -/
theorem C1_hasher_digest_chain (size ssa offset : Nat) (st pages secinfo : List Nat)
    (m : Bool) (h : pages.length % 4096 = 0) :
    Hasher.new size ssa =
      leBytes 8 0x0045544145524345 ++ leBytes 4 ssa ++ leBytes 8 size ++
        List.replicate 44 0
    ∧ Hasher.load st pages offset secinfo m =
        (st ++ (List.range (pages.length / 4096)).flatMap fun i =>
          leBytes 8 0x0000000044444145 ++ leBytes 8 (offset + 4096 * i) ++
            secinfo.take 48 ++
            (if m then (List.range 16).flatMap fun j =>
                leBytes 8 0x00444E4554584545 ++
                  leBytes 8 (offset + 4096 * i + 256 * j) ++
                  List.replicate 48 0 ++
                  (pages.drop (4096 * i + 256 * j)).take 256
              else []),
         Except.ok ()) := by
  constructor
  · rfl
  · rw [Hasher.load_eq, if_neg (by omega)]
    have hdvd : 4096 ∣ pages.length := Nat.dvd_of_mod_eq_zero h
    have hlen : pages.length = 4096 * (pages.length / 4096) := (Nat.mul_div_cancel' hdvd).symm
    rw [loadChain_eq_spec (pages.length / 4096) offset secinfo m pages hlen]
    rfl

/-- Witness for C1 on one measured page of 3-bytes at offset 0. -/
theorem C1_hasher_digest_chain_witness :
    Hasher.new 65536 1 =
      leBytes 8 0x0045544145524345 ++ leBytes 4 1 ++ leBytes 8 65536 ++
        List.replicate 44 0
    ∧ Hasher.load [] (List.replicate 4096 3) 0 (List.replicate 64 7) true =
        ([] ++ (List.range ((List.replicate 4096 3).length / 4096)).flatMap fun i =>
          leBytes 8 0x0000000044444145 ++ leBytes 8 (0 + 4096 * i) ++
            (List.replicate 64 7).take 48 ++
            (if true then (List.range 16).flatMap fun j =>
                leBytes 8 0x00444E4554584545 ++
                  leBytes 8 (0 + 4096 * i + 256 * j) ++
                  List.replicate 48 0 ++
                  ((List.replicate 4096 3).drop (4096 * i + 256 * j)).take 256
              else []),
         Except.ok ()) :=
  C1_hasher_digest_chain 65536 1 0 [] (List.replicate 4096 3) (List.replicate 64 7)
    true (by rw [List.length_replicate])

/-- Arguments of a single Hasher.load invocation. -/
structure LoadCall where
  pages : List Nat
  offset : Nat
  secinfo : List Nat
  measure : Bool
deriving DecidableEq

/-- Runs a sequence of load calls, threading the transcript state; a
rejected call leaves the state unchanged, as the mutable borrow does in
the source. -/
def runLoads (st : List Nat) (calls : List LoadCall) : List Nat :=
  calls.foldl (fun s c => (Hasher.load s c.pages c.offset c.secinfo c.measure).1) st

/-- With measuring off the page-loop transcript depends only on the
input length, not on the page contents. -/
theorem loadChunks_false_blind (f : Nat) : ∀ (off : Nat) (si p₁ p₂ : List Nat),
    p₁.length = p₂.length → p₁.length ≤ f →
    loadChunks f off si false p₁ = loadChunks f off si false p₂ := by
  induction f with
  | zero =>
    intro off si p₁ p₂ hl h1
    cases p₁ with
    | nil =>
      cases p₂ with
      | nil => rfl
      | cons c s => simp at hl
    | cons b r => simp at h1
  | succ g ih =>
    intro off si p₁ p₂ hl h1
    cases p₁ with
    | nil =>
      cases p₂ with
      | nil => rfl
      | cons c s => simp at hl
    | cons b r =>
      cases p₂ with
      | nil => simp at hl
      | cons c s =>
        simp only [loadChunks, if_neg Bool.false_ne_true]
        have hto : ((b :: r).take 4096).length = ((c :: s).take 4096).length := by
          rw [List.length_take, List.length_take, hl]
        rw [hto]
        congr 1
        apply ih
        · rw [List.length_drop, List.length_drop, hl]
        · rw [List.length_drop]
          simp only [List.length_cons] at h1 ⊢
          omega

/-- With measuring off a load call is insensitive to page contents of
the same length. -/
theorem load_false_blind (st : List Nat) (p₁ p₂ : List Nat) (off : Nat) (si : List Nat)
    (hl : p₁.length = p₂.length) :
    Hasher.load st p₁ off si false = Hasher.load st p₂ off si false := by
  unfold Hasher.load
  rw [hl]
  by_cases hc : p₂.length % 4096 ≠ 0
  · rw [if_pos hc, if_pos hc]
  · rw [if_neg hc, if_neg hc]
    have hb := loadChunks_false_blind p₂.length off si p₁ p₂ hl (Nat.le_of_eq hl)
    rw [hb]

/-- Runs of unmeasured load calls agreeing on offsets, secinfo and page
lengths produce the same transcript. -/
theorem runLoads_false_blind (calls₁ calls₂ : List LoadCall)
    (h : List.Forall₂ (fun c₁ c₂ : LoadCall =>
      c₁.pages.length = c₂.pages.length ∧ c₁.offset = c₂.offset
      ∧ c₁.secinfo = c₂.secinfo ∧ c₁.measure = false ∧ c₂.measure = false)
      calls₁ calls₂) :
    ∀ st : List Nat, runLoads st calls₁ = runLoads st calls₂ := by
  induction h with
  | nil =>
    intro st
    rfl
  | @cons c₁ c₂ l₁ l₂ hR hF ih =>
    intro st
    obtain ⟨hlen, hoff, hsi, hm₁, hm₂⟩ := hR
    have hload : Hasher.load st c₁.pages c₁.offset c₁.secinfo c₁.measure
        = Hasher.load st c₂.pages c₂.offset c₂.secinfo c₂.measure := by
      rw [hm₁, hm₂, hoff, hsi]
      exact load_false_blind st c₁.pages c₂.pages c₂.offset c₂.secinfo hlen
    show runLoads (Hasher.load st c₁.pages c₁.offset c₁.secinfo c₁.measure).1 l₁
        = runLoads (Hasher.load st c₂.pages c₂.offset c₂.secinfo c₂.measure).1 l₂
    rw [hload]
    exact ih _

/-- Decidable equality for load results, used to evaluate concrete
transcript comparisons. -/
instance : DecidableEq (Except InvalidSize Unit) := fun a b =>
  match a, b with
  | Except.ok (), Except.ok () => isTrue rfl
  | Except.ok (), Except.error InvalidSize.mk => isFalse fun h => Except.noConfusion h
  | Except.error InvalidSize.mk, Except.ok () => isFalse fun h => Except.noConfusion h
  | Except.error InvalidSize.mk, Except.error InvalidSize.mk => isTrue rfl

/-- Transcript of an unmeasured load of a single page. -/
theorem load_one_page_false (st : List Nat) (off : Nat) (si p : List Nat)
    (hp : p.length = 4096) :
    Hasher.load st p off si false = (st ++ eaddRecord off si, Except.ok ()) := by
  rw [Hasher.load_eq, if_neg (by omega)]
  rw [loadChain_eq_spec 1 off si false p (by omega)]
  have hr : List.range 1 = [0] := rfl
  simp [hr, if_neg Bool.false_ne_true]

/-- Transcript of an unmeasured load of two pages. -/
theorem load_two_pages_false (st : List Nat) (off : Nat) (si p : List Nat)
    (hp : p.length = 8192) :
    Hasher.load st p off si false
      = (st ++ (eaddRecord off si ++ eaddRecord (off + 4096) si), Except.ok ()) := by
  rw [Hasher.load_eq, if_neg (by omega)]
  rw [loadChain_eq_spec 2 off si false p (by omega)]
  have hr : List.range 2 = [0, 1] := rfl
  simp [hr, if_neg Bool.false_ne_true]

/-- C9: the Hasher is deterministic (equal creation parameters and
equal call sequences give equal finish outputs under any digest), and
with measure false it is blind to page content (runs differing only in
page bytes agree) while still sensitive to the offset and to the page
count, witnessed by concrete diverging transcripts. -/
theorem C9_hasher_determinism (size₁ size₂ ssa₁ ssa₂ : Nat) (st : List Nat)
    (digest : List Nat → List Nat) (calls calls' blinds₁ blinds₂ : List LoadCall)
    (hsize : size₁ = size₂) (hssa : ssa₁ = ssa₂) (hcalls : calls = calls')
    (hblind : List.Forall₂ (fun c₁ c₂ : LoadCall =>
      c₁.pages.length = c₂.pages.length ∧ c₁.offset = c₂.offset
      ∧ c₁.secinfo = c₂.secinfo ∧ c₁.measure = false ∧ c₂.measure = false)
      blinds₁ blinds₂) :
    Hasher.finish digest (runLoads (Hasher.new size₁ ssa₁) calls)
        = Hasher.finish digest (runLoads (Hasher.new size₂ ssa₂) calls')
    ∧ Hasher.finish digest (runLoads st blinds₁) = Hasher.finish digest (runLoads st blinds₂)
    ∧ Hasher.load [] (List.replicate 4096 0) 0 [] false
        ≠ Hasher.load [] (List.replicate 4096 0) 4096 [] false
    ∧ Hasher.load [] (List.replicate 4096 0) 0 [] false
        ≠ Hasher.load [] (List.replicate 8192 0) 0 [] false := by
  refine ⟨by rw [hsize, hssa, hcalls], ?_, ?_, ?_⟩
  · unfold Hasher.finish
    rw [runLoads_false_blind blinds₁ blinds₂ hblind st]
  · intro hEq
    rw [load_one_page_false [] 0 [] (List.replicate 4096 0) (List.length_replicate _ _),
      load_one_page_false [] 4096 [] (List.replicate 4096 0)
        (List.length_replicate _ _)] at hEq
    exact absurd hEq (by decide)
  · intro hEq
    rw [load_one_page_false [] 0 [] (List.replicate 4096 0) (List.length_replicate _ _),
      load_two_pages_false [] 0 [] (List.replicate 8192 0)
        (List.length_replicate _ _)] at hEq
    exact absurd hEq (by decide)

/-- Witness for C9: a concrete repeated run, and two unmeasured single
page loads differing only in page content. -/
theorem C9_hasher_determinism_witness :
    Hasher.finish (fun l => l) (runLoads (Hasher.new 1048576 1)
        [⟨List.replicate 4096 5, 0, List.replicate 64 2, true⟩])
      = Hasher.finish (fun l => l) (runLoads (Hasher.new 1048576 1)
        [⟨List.replicate 4096 5, 0, List.replicate 64 2, true⟩])
    ∧ Hasher.finish (fun l => l) (runLoads [] [⟨List.replicate 4096 9, 0, [], false⟩])
      = Hasher.finish (fun l => l) (runLoads [] [⟨List.replicate 4096 4, 0, [], false⟩])
    ∧ Hasher.load [] (List.replicate 4096 0) 0 [] false
        ≠ Hasher.load [] (List.replicate 4096 0) 4096 [] false
    ∧ Hasher.load [] (List.replicate 4096 0) 0 [] false
        ≠ Hasher.load [] (List.replicate 8192 0) 0 [] false :=
  C9_hasher_determinism 1048576 1048576 1 1 [] (fun l => l)
    [⟨List.replicate 4096 5, 0, List.replicate 64 2, true⟩]
    [⟨List.replicate 4096 5, 0, List.replicate 64 2, true⟩]
    [⟨List.replicate 4096 9, 0, [], false⟩]
    [⟨List.replicate 4096 4, 0, [], false⟩]
    rfl rfl rfl
    (List.Forall₂.cons
      ⟨by rw [List.length_replicate, List.length_replicate], rfl, rfl, rfl, rfl⟩
      List.Forall₂.nil)
